import Mathlib

/-!
Verification development for the AudioLM repository
(`src/audiolm/utils.py` and `src/audiolm/data_preparation.py`).

The Python code is shallowly embedded:
* Python strings are `String` / `List Char`; `str.split(sep)` (leftmost,
  non-overlapping, nonempty separator) is `splitLF`; `int(s)` is `pyInt?`;
  Python's decimal printing of an integer (`f"{n}"`) is `pyStrInt`.
* `pathlib` stems, `"*.pth"` globbing and directory listings are modelled on
  lists of file names; a filesystem tree is a list of component paths.
* Audio tensors (`channels_first`) are `List (List ℚ)` (one inner list per
  channel); sample values are exact rationals.
* Python exceptions are the `Except PyErr` monad; an exception raised by a
  statement makes the surrounding call return `Except.error`.
* `torch.save`/`torch.load` of a checkpoint dictionary are modelled by
  passing the saved payload (`Checkpoint`) to the loader: the claims are
  about what the dictionary contains, not about serialisation.
-/

/-- Exceptions that the embedded code can raise.  `indexError`, `valueError`
and `assertionError` model the Python builtins actually raised by the source.
`checkpointFormatError` and `configurationError` are modelled from the spec:
the spec names these two dedicated exception types, but no such classes exist
anywhere in the source. -/
inductive PyErr where
  | indexError
  | valueError
  | assertionError
  | checkpointFormatError
  | configurationError
deriving DecidableEq

/-! ### Python string primitives -/

/-- Boolean prefix test on char lists (`l₂.startswith l₁`). -/
def ipo : List Char → List Char → Bool
  | [], _ => true
  | _ :: _, [] => false
  | a :: as, b :: bs => (a == b) && ipo as bs

/-- Fueled leftmost split on the nonempty separator `sc :: sep`, exactly the
semantics of Python `s.split(sep)` for a nonempty separator: scan left to
right, cut at each non-overlapping occurrence.  The fuel only serves
structural recursion; `fuel ≥ s.length` makes it irrelevant. -/
def splitLF (sc : Char) (sep : List Char) : Nat → List Char → List (List Char)
  | _, [] => [[]]
  | 0, c :: rest => [c :: rest]
  | fuel + 1, c :: rest =>
    if ipo (sc :: sep) (c :: rest) then
      [] :: splitLF sc sep fuel (rest.drop sep.length)
    else
      match splitLF sc sep fuel rest with
      | [] => [[c]]
      | p :: ps => (c :: p) :: ps

/-- Python `s.split(sep)` on char lists (nonempty separator `sc :: sep`). -/
def pySplit (sc : Char) (sep : List Char) (s : List Char) : List (List Char) :=
  splitLF sc sep s.length s

/-- The decimal digit characters, used to print integers. -/
def digitChar (d : Nat) : Char :=
  List.getD ['0', '1', '2', '3', '4', '5', '6', '7', '8', '9'] d '9'

/-- Numeric value of a decimal digit character. -/
def digitVal (c : Char) : Nat := c.toNat - 48

/-- Fueled decimal printing of a natural number (most significant digit
first); with `fuel ≥ n` this is exactly the decimal numeral of `n`. -/
def natDigitsF : Nat → Nat → List Char
  | 0, n => [digitChar (n % 10)]
  | fuel + 1, n =>
    if n < 10 then [digitChar n]
    else natDigitsF fuel (n / 10) ++ [digitChar (n % 10)]

/-- Decimal numeral of a natural number, as Python `str(n)` produces it. -/
def natDigits (n : Nat) : List Char := natDigitsF n n

/-- Python `str(k)` for an integer `k` (decimal, `-` sign for negatives). -/
def pyStrInt (k : Int) : List Char :=
  if k < 0 then '-' :: natDigits (-k).toNat else natDigits k.toNat

/-- Checker for the digit part accepted by Python `int(...)`: a nonempty
digit string in which single underscores may appear between digits
(PEP 515), e.g. `12`, `1_2`; rejects ``, `_1`, `1_`, `1__2`. -/
def digitsUS : List Char → Bool
  | [] => false
  | [c] => c.isDigit
  | c :: d :: rest =>
    c.isDigit && (if d == '_' then digitsUS rest else digitsUS (d :: rest))

/-- Value of a digit string (underscores already removed). -/
def digitsValCore (l : List Char) : Nat :=
  l.foldl (fun a c => 10 * a + digitVal c) 0

/-- Python `int(s)` restricted to the digit part (no sign). -/
def pyNat? (l : List Char) : Option Nat :=
  if digitsUS l then some (digitsValCore (l.filter (fun c => c != '_'))) else none

/-- The six ASCII whitespace characters Python strips around the argument
of `int(...)` (space, tab, newline, carriage return, vertical tab, form
feed). -/
def pySpace (c : Char) : Bool :=
  c == ' ' || c == '\t' || c == '\n' || c == '\r' || c == '\x0b' || c == '\x0c'

/-- Strip leading and trailing whitespace, as `int(...)` does. -/
def pyStrip (l : List Char) : List Char :=
  ((l.dropWhile pySpace).reverse.dropWhile pySpace).reverse

/-- The sign-and-digits part of Python `int(s)`: optional `-`/`+` sign
followed by digits. -/
def pySigned (l : List Char) : Option Int :=
  match l with
  | [] => none
  | c :: t =>
    if c = '-' then (pyNat? t).map (fun n => -(n : Int))
    else if c = '+' then (pyNat? t).map (fun n => (n : Int))
    else (pyNat? l).map (fun n => (n : Int))

/-- Python `int(s)`: surrounding whitespace is stripped, then an optional
`-`/`+` sign and a nonempty digit string (single underscores allowed
between digits); `none` models the `ValueError` that `int` raises on
anything else.  This is exact for ASCII strings; the non-ASCII decimal
digits Python also accepts are outside the model, so theorems that rely on
`int` failing are scoped to ASCII inputs. -/
def pyInt? (l : List Char) : Option Int :=
  pySigned (pyStrip l)

/-- Python `pat in s` (substring test). -/
def hasSubstr (pat s : List Char) : Bool :=
  (List.range (s.length + 1)).any (fun i => ipo pat (s.drop i))

/-- `pathlib.PurePath.stem`: the file name without its last suffix; a suffix
exists only when the last `.` sits at an index `i` with `0 < i < length-1`. -/
def stemL (l : List Char) : List Char :=
  match (List.range l.length).reverse.find? (fun i => l.getD i ' ' == '.') with
  | some i => if 0 < i ∧ i < l.length - 1 then l.take i else l
  | none => l

/-- A file name matches the glob pattern `*.pth` exactly when it ends in
`.pth`: `pathlib.Path.glob` uses fnmatch-style matching, where `*` also
matches names with a leading dot. -/
def pthGlobMatch (l : List Char) : Bool :=
  List.isSuffixOf ".pth".data l

/-- `root.glob("*.pth")` over a directory listing (file names, listing
order): keep the names matching `*.pth`. -/
def globPth (names : List String) : List String :=
  names.filter (fun n => pthGlobMatch n.data)

/-! ### Checkpoint utilities (`utils.py`) -/

/-- The dictionary written by `save_checkpoint` (lines 40-48):
`model_state_dict`, `epoch`, `optimizer_state_dict`, `early_stop_counter`.
Model and optimizer state dicts are opaque (`W`, `O`). -/
structure Checkpoint (W O : Type) where
  model_state_dict : W
  epoch : Int
  optimizer_state_dict : O
  early_stop_counter : Int
deriving DecidableEq

/-- The optimizer rebuilt by `load_checkpoint` (lines 75-76):
`torch.optim.Adam(model.parameters(), lr=0.001)` followed by
`load_state_dict` of the saved state.  `lr` is the constructor argument
(the hardcoded `0.001`); `state_dict` is the loaded state. -/
structure Optimizer (O : Type) where
  lr : ℚ
  state_dict : O
deriving DecidableEq

/-- `f"{model_name}_epoch_{epoch+1}.pth"` (line 39). -/
def checkpoint_filename (modelName : String) (epoch : Int) : String :=
  modelName ++ "_epoch_" ++ String.mk (pyStrInt (epoch + 1)) ++ ".pth"

/-- `save_checkpoint` (lines 34-48): returns the full path of the file it
writes, `save_path/models/<name>/<name>_epoch_<epoch+1>.pth`, together with
the checkpoint dictionary stored there. -/
def save_checkpoint {W O : Type} (modelName : String) (model_state : W)
    (epoch : Int) (optimizer_state : O) (early_stop_counter : Int)
    (save_path : String) : String × Checkpoint W O :=
  (save_path ++ "/models/" ++ modelName ++ "/" ++ checkpoint_filename modelName epoch,
   ⟨model_state, epoch, optimizer_state, early_stop_counter⟩)

/-- `int(checkpoint_path.split("_epoch_")[1].split(".pth")[0])` (line 71),
run on a char list.  `[1]` on a 1-element split raises `IndexError`;
a non-numeric token makes `int` raise `ValueError`.  (`[0]` never fails:
`split` always returns a nonempty list.) -/
def epochCore (l : List Char) : Except PyErr Int :=
  match (pySplit '_' "epoch_".data l).drop 1 with
  | [] => Except.error PyErr.indexError
  | piece :: _ =>
    match pyInt? ((pySplit '.' "pth".data piece).headD []) with
    | none => Except.error PyErr.valueError
    | some k => Except.ok k

/-- `load_checkpoint` (lines 57-79): parses the epoch out of the path string
(line 71, before the file is read), then loads the model weights, rebuilds an
Adam optimizer with the hardcoded `lr=0.001` and loads its saved state, and
returns `(model, epoch, optimizer, early_stop_counter)`.  The `payload`
argument stands for the dictionary `torch.load` finds in the file. -/
def load_checkpoint {W O : Type} (checkpoint_path : String)
    (payload : Checkpoint W O) : Except PyErr (W × Int × Optimizer O × Int) :=
  match epochCore checkpoint_path.data with
  | Except.error e => Except.error e
  | Except.ok epoch =>
    Except.ok (payload.model_state_dict, epoch,
      ⟨1 / 1000, payload.optimizer_state_dict⟩, payload.early_stop_counter)

/-- Files kept by `get_latest_checkpoint_path` (line 94): the `*.pth` glob
results whose stem contains `"epoch"`. -/
def epochFiltered (dir : List String) : List String :=
  (globPth dir).filter (fun f => hasSubstr "epoch".data (stemL f.data))

/-- The sort key of `get_latest_checkpoint_path` (line 100):
`int(file.stem.split("_epoch_")[1].split(".pth")[0])`. -/
def ckptKey (f : String) : Except PyErr Int :=
  epochCore (stemL f.data)

/-- Comparison by key used to model Python's stable ascending `sorted`. -/
def keyLe (a b : String × Int) : Prop := a.2 ≤ b.2

instance : DecidableRel keyLe := fun a b => Int.decLe a.2 b.2

instance : IsTotal (String × Int) keyLe := ⟨fun a b => Int.le_total a.2 b.2⟩

instance : IsTrans (String × Int) keyLe :=
  ⟨fun _ _ _ h h' => Int.le_trans h h'⟩

/-- Key evaluation of `sorted(filtered, key=...)`: Python evaluates the key
on every element (in list order) before sorting, so the first failing key
raises out of the call. -/
def keyed? (l : List String) : Except PyErr (List (String × Int)) :=
  l.mapM (fun f => (ckptKey f).map (fun k => (f, k)))

/-- `get_latest_checkpoint_path` (lines 91-101) over a directory listing:
filter the `*.pth` files with `"epoch"` in the stem, return `None` if there
are none, otherwise sort them by the numeric epoch embedded in the stem
(Python's `sorted` is a stable ascending sort, modelled by `insertionSort`)
and return the last.  A file whose stem lacks a parsable `_epoch_<N>` marker
makes the key function raise. -/
def get_latest_checkpoint_path (dir : List String) : Except PyErr (Option String) :=
  let filtered := epochFiltered dir
  if filtered.isEmpty then Except.ok none
  else
    match keyed? filtered with
    | Except.error e => Except.error e
    | Except.ok kl =>
      Except.ok (((List.insertionSort keyLe kl).getLast?).map Prod.fst)

/-- `int(c.stem.split("_")[-1])`'s argument in `get_latest_epoch`
(line 118): the trailing `_`-separated token of the stem. -/
def trailingTok (name : String) : List Char :=
  (pySplit '_' [] (stemL name.data)).getLastD []

/-- The epochs collected by `get_latest_epoch`'s loop (lines 115-120): for
each `*.pth` file, try `int` on the trailing token of its stem; a
`ValueError` is caught and the file is skipped. -/
def parsedEpochs (names : List String) : List Int :=
  (globPth names).filterMap (fun c => pyInt? (trailingTok c))

/-- `get_latest_epoch` (lines 104-128) given the names in the `models`
directory: the maximum of the parsed epochs, `0` if none parsed. -/
def get_latest_epoch_names (names : List String) : Int :=
  match parsedEpochs names with
  | [] => 0
  | p :: ps => ps.foldl (fun a b => if a < b then b else a) p

/-- `get_latest_epoch` over a filesystem: a file is a component path
relative to `save_path`; `(save_path / "models").glob("*.pth")` only sees
entries directly inside `models` (globbing is not recursive). -/
def get_latest_epoch (fs : List (List String)) : Int :=
  get_latest_epoch_names
    (fs.filterMap (fun p =>
      match p with
      | ["models", n] => some n
      | _ => none))

/-- The component path (relative to `save_path`) of the file written by
`save_checkpoint` (lines 35-39): `models/<name>/<name>_epoch_<epoch+1>.pth`,
one directory level below `models`. -/
def save_checkpoint_relpath (modelName : String) (epoch : Int) : List String :=
  ["models", modelName, checkpoint_filename modelName epoch]

/-! ### Audio dataset (`data_preparation.py`) -/

/-- What `torchaudio.load` returns for one file: the channel-first sample
data and the native sample rate. -/
structure RawAudio where
  channels : List (List ℚ)
  sr : Nat
deriving DecidableEq

/-- `audio.size(1)` of a channels-first tensor: the per-channel sample
count (tensors are rectangular, so the first channel's length). -/
def size1 (a : List (List ℚ)) : Nat := (a.headD []).length

/-- `audio.mean(0, keepdim=True)`: average the channels pointwise, keeping
a channel dimension of one. -/
def chMean (a : List (List ℚ)) : List (List ℚ) :=
  [(List.range (size1 a)).map
    (fun i => (a.map (fun ch => ch.getD i 0)).sum / (a.length : ℚ))]

/-- Per-file preprocessing of `get_ready_audio` (lines 72-77): resample when
the native rate differs from the target (the resampler itself is the
external `torchaudio.functional.resample`, taken as a parameter), then mix
down to mono when there is more than one channel. -/
def loadStep (resample : List (List ℚ) → Nat → Nat → List (List ℚ))
    (freq : Nat) (f : RawAudio) : List (List ℚ) :=
  let audio := if f.sr ≠ freq then resample f.channels f.sr freq else f.channels
  if 1 < audio.length then chMean audio else audio

/-- Modelled from the spec: `padding_audio` is imported from
`audiolm.semantic_acoustic_modeling.utils`, which is not part of the given
sources.  Per the spec, clips shorter than the target are zero-padded at
the end to exactly the target length. -/
def padding_audio (a : List (List ℚ)) (target : Int) : List (List ℚ) :=
  a.map (fun ch => ch ++ List.replicate (target - ch.length).toNat 0)

/-- Modelled from the spec: `cut_audio` is imported from
`audiolm.semantic_acoustic_modeling.utils`, which is not part of the given
sources.  Per the spec, clips longer than the target are truncated to their
first `target` samples. -/
def cut_audio (a : List (List ℚ)) (target : Int) : List (List ℚ) :=
  a.map (fun ch => ch.take target.toNat)

/-- The running maximum computed by the load loop (lines 69, 81-82):
starts at `-1` and takes each clip's `size(1)` if larger. -/
def observedMax (data : List (List (List ℚ))) : Int :=
  data.foldl (fun m a => if m < (size1 a : Int) then (size1 a : Int) else m) (-1)

/-- The normalisation pass of `get_ready_audio` (lines 86-93): pad clips
shorter than `max_len`, cut clips longer, leave exact-length clips alone. -/
def normalizeClip (maxLen : Int) (a : List (List ℚ)) : List (List ℚ) :=
  if (size1 a : Int) < maxLen then padding_audio a maxLen
  else if maxLen < (size1 a : Int) then cut_audio a maxLen
  else a

/-- `get_ready_audio` (lines 60-95): preprocess every file, resolve
`max_len` (keep the explicit value if one was given, else the running
maximum), then normalise every clip.  Returns the clip list and the
resolved `max_len`. -/
def get_ready_audio (resample : List (List ℚ) → Nat → Nat → List (List ℚ))
    (freq : Nat) (maxLen0 : Option Int) (files : List RawAudio) :
    List (List (List ℚ)) × Int :=
  let data := files.map (loadStep resample freq)
  let maxLen := maxLen0.getD (observedMax data)
  (data.map (normalizeClip maxLen), maxLen)

/-- The state of a constructed `AudioDataset`: the resolved `max_len`
(target length) and the stored clips. -/
structure AudioDataset where
  max_len : Int
  data : List (List (List ℚ))
deriving DecidableEq

/-- `AudioDataset.__init__` (lines 31-44): `rootExists` is whether
`path_folder` exists (line 34's `assert` raises `AssertionError` if not,
before anything is loaded); `files` are the audio files the directory walk
finds; `max_length_audio * sample_frequency` gives the explicit `max_len`
when a duration was supplied. -/
def AudioDataset.init (rootExists : Bool)
    (resample : List (List ℚ) → Nat → Nat → List (List ℚ))
    (files : List RawAudio) (max_length_audio : Option Nat)
    (sample_frequency : Nat) : Except PyErr AudioDataset :=
  if rootExists then
    let p := get_ready_audio resample sample_frequency
      (max_length_audio.map (fun d => ((d * sample_frequency : Nat) : Int))) files
    Except.ok ⟨p.2, p.1⟩
  else Except.error PyErr.assertionError

/-- A tensor of rank one or two, so that `squeeze` can change the rank. -/
inductive Tensor where
  | t1 (samples : List ℚ)
  | t2 (channels : List (List ℚ))
deriving DecidableEq

/-- `audio.squeeze(0)` on a channels-first (rank-2) tensor: drop the
leading dimension exactly when it has size one. -/
def squeeze0 (a : List (List ℚ)) : Tensor :=
  match a with
  | [ch] => Tensor.t1 ch
  | _ => Tensor.t2 a

/-- `AudioDataset.__getitem__` (lines 97-100): fetch the stored clip and
squeeze away the channel dimension. -/
def AudioDataset.getItem (ds : AudioDataset) (idx : Nat) : Tensor :=
  squeeze0 (ds.data.getD idx [])

/-- The arguments `AudioDataLoader.__init__` passes to
`super().__init__` / `DataLoader` (line 138 resp. lines 154-158). -/
structure TorchDataLoader where
  dataset : AudioDataset
  batch_size : Nat
  shuffle : Bool
deriving DecidableEq

/-- The state of a constructed `AudioDataLoader` (lines 118-138): its
dataset, batch size, `max_len`, the stored `shuffle` flag, and the
arguments it passed to the underlying `DataLoader` constructor
(`super().__init__(self.dataset, batch_size=batch_size, shuffle=False)`). -/
structure AudioDataLoader where
  dataset : AudioDataset
  batch_size : Nat
  max_len : Option Int
  shuffle : Bool
  superInit : TorchDataLoader
deriving DecidableEq

/-- `AudioDataLoader.__init__` (lines 118-138). -/
def AudioDataLoader.init (rootExists : Bool)
    (resample : List (List ℚ) → Nat → Nat → List (List ℚ))
    (files : List RawAudio) (batch_size : Nat) (shuffle : Bool)
    (max_length_audio : Option Nat) (sample_frequency : Nat) :
    Except PyErr AudioDataLoader :=
  match AudioDataset.init rootExists resample files max_length_audio sample_frequency with
  | Except.error e => Except.error e
  | Except.ok ds =>
    Except.ok
      { dataset := ds
        batch_size := batch_size
        max_len := max_length_audio.map (fun d => ((d * sample_frequency : Nat) : Int))
        shuffle := shuffle
        superInit := { dataset := ds, batch_size := batch_size, shuffle := false } }

/-- `AudioDataLoader.return_dataloader` (lines 149-159): builds a fresh
`DataLoader` over the dataset, this time passing the stored flag. -/
def AudioDataLoader.return_dataloader (l : AudioDataLoader) : TorchDataLoader :=
  { dataset := l.dataset, batch_size := l.batch_size, shuffle := l.shuffle }

/-- Decidable absence of a spurious separator occurrence in `a ++ sep`
before the final `sep`: this is what makes `(a ++ sep ++ b).split(sep)[1]`
recover `b`'s first piece. -/
def cleanBeforeB (sc : Char) (sep a : List Char) : Bool :=
  (List.range a.length).all
    (fun i => !(ipo (sc :: sep) ((a ++ sc :: sep).drop i)))

deriving instance DecidableEq for Except

/-! ### Lemmas about the string primitives -/

theorem ipo_nil (t : List Char) : ipo [] t = true := rfl

theorem ipo_cons_nil (a : Char) (as : List Char) : ipo (a :: as) [] = false := rfl

theorem ipo_cons_cons (a b : Char) (as bs : List Char) :
    ipo (a :: as) (b :: bs) = ((a == b) && ipo as bs) := rfl

theorem ipo_self_append (p t : List Char) : ipo p (p ++ t) = true := by
  induction p with
  | nil => rfl
  | cons a as ih => simp [ipo_cons_cons, ih]

theorem ipo_mono (p : List Char) :
    ∀ (u v : List Char), p.length ≤ u.length → ipo p (u ++ v) = ipo p u := by
  induction p with
  | nil => intro u v _; rfl
  | cons a as ih =>
    intro u v h
    cases u with
    | nil => simp at h
    | cons b bs =>
      rw [List.cons_append, ipo_cons_cons, ipo_cons_cons,
        ih bs v (by simpa using h)]

theorem ipo_head {sc c : Char} {sep t : List Char}
    (h : ipo (sc :: sep) (c :: t) = true) : sc = c := by
  rw [ipo_cons_cons, Bool.and_eq_true] at h
  exact eq_of_beq h.1

theorem splitLF_fuel (sc : Char) (sep : List Char) :
    ∀ (f : Nat) (s : List Char) (g : Nat), s.length ≤ f → s.length ≤ g →
      splitLF sc sep f s = splitLF sc sep g s := by
  intro f
  induction f with
  | zero =>
    intro s g hf _
    have hs : s = [] := by
      cases s with
      | nil => rfl
      | cons c t => simp at hf
    subst hs
    cases g <;> rfl
  | succ f ih =>
    intro s g hf hg
    cases s with
    | nil => cases g <;> rfl
    | cons c rest =>
      cases g with
      | zero => simp at hg
      | succ g' =>
        simp only [List.length_cons] at hf hg
        simp only [splitLF]
        cases hp : ipo (sc :: sep) (c :: rest) with
        | true =>
          rw [if_pos (show true = true from rfl), if_pos (show true = true from rfl)]
          rw [ih (rest.drop sep.length) g'
            (by simp [List.length_drop]; omega)
            (by simp [List.length_drop]; omega)]
        | false =>
          rw [if_neg (show ¬ (false = true) by simp),
            if_neg (show ¬ (false = true) by simp)]
          rw [ih rest g' (by omega) (by omega)]

theorem splitLF_no_sc (sc : Char) (sep : List Char) :
    ∀ (fuel : Nat) (s : List Char), s.length ≤ fuel →
      (∀ c ∈ s, c ≠ sc) → splitLF sc sep fuel s = [s] := by
  intro fuel
  induction fuel with
  | zero =>
    intro s h _
    have hs : s = [] := by
      cases s with
      | nil => rfl
      | cons c t => simp at h
    subst hs; rfl
  | succ f ih =>
    intro s hlen hchar
    cases s with
    | nil => rfl
    | cons c rest =>
      simp only [splitLF]
      have hne : ipo (sc :: sep) (c :: rest) = false := by
        cases hp : ipo (sc :: sep) (c :: rest) with
        | false => rfl
        | true => exact absurd (ipo_head hp).symm (hchar c (by simp))
      rw [hne]
      simp only [Bool.false_eq_true, if_false]
      rw [ih rest (by simpa using hlen) (fun x hx => hchar x (by simp [hx]))]

theorem splitLF_boundary (sc : Char) (sep b : List Char) :
    ∀ (a : List Char) (fuel : Nat),
      (a ++ (sc :: sep) ++ b).length ≤ fuel →
      (∀ i, i < a.length →
        ipo (sc :: sep) ((a ++ sc :: sep).drop i) = false) →
      splitLF sc sep fuel (a ++ (sc :: sep) ++ b) =
        a :: splitLF sc sep b.length b := by
  intro a
  induction a with
  | nil =>
    intro fuel hfuel _
    simp only [List.nil_append] at hfuel ⊢
    cases fuel with
    | zero => simp [List.length_append] at hfuel
    | succ f =>
      have hcons : (sc :: sep) ++ b = sc :: (sep ++ b) := by simp
      rw [hcons]
      simp only [splitLF]
      have htrue : ipo (sc :: sep) (sc :: (sep ++ b)) = true := by
        have : sc :: (sep ++ b) = (sc :: sep) ++ b := by simp
        rw [this]
        exact ipo_self_append _ _
      rw [htrue]
      simp only [if_true]
      rw [List.drop_left sep b]
      rw [splitLF_fuel sc sep f b b.length
        (by simp [List.length_append] at hfuel; omega) (le_refl _)]
  | cons x a' ih =>
    intro fuel hfuel hclean
    cases fuel with
    | zero => simp [List.length_append] at hfuel
    | succ f =>
      have hshape : (x :: a') ++ (sc :: sep) ++ b = x :: (a' ++ (sc :: sep) ++ b) := by
        simp
      rw [hshape]
      simp only [splitLF]
      have h0 : ipo (sc :: sep) ((x :: a') ++ sc :: sep) = false := by
        have h := hclean 0 (by simp)
        simpa using h
      have hfull : ipo (sc :: sep) (x :: (a' ++ (sc :: sep) ++ b)) = false := by
        have hx : x :: (a' ++ (sc :: sep) ++ b) = ((x :: a') ++ (sc :: sep)) ++ b := by
          simp
        rw [hx, ipo_mono (sc :: sep) ((x :: a') ++ (sc :: sep)) b
          (by simp [List.length_append]; omega)]
        exact h0
      rw [hfull]
      simp only [Bool.false_eq_true, if_false]
      have hrec : splitLF sc sep f (a' ++ (sc :: sep) ++ b) =
          a' :: splitLF sc sep b.length b := by
        apply ih
        · simp only [List.length_append, List.length_cons] at hfuel ⊢; omega
        · intro i hi
          have h := hclean (i + 1) (by simp; omega)
          simpa using h
      rw [hrec]

/-! ### Lemmas about decimal printing and `int` parsing -/

theorem digitChar_isDigit (d : Nat) : (digitChar d).isDigit = true := by
  by_cases h : d < 10
  · interval_cases d <;> rfl
  · unfold digitChar
    rw [List.getD_eq_default]
    · rfl
    · simp; omega

theorem digitVal_digitChar (d : Nat) (h : d < 10) : digitVal (digitChar d) = d := by
  interval_cases d <;> rfl

theorem isDigit_ne_of (c x : Char) (hx : x.isDigit = false)
    (h : c.isDigit = true) : c ≠ x := by
  intro he
  rw [he, hx] at h
  cases h

theorem natDigitsF_digits :
    ∀ (fuel n : Nat), ∀ c ∈ natDigitsF fuel n, c.isDigit = true := by
  intro fuel
  induction fuel with
  | zero =>
    intro n c hc
    simp only [natDigitsF, List.mem_singleton] at hc
    rw [hc]; exact digitChar_isDigit _
  | succ f ih =>
    intro n c hc
    simp only [natDigitsF] at hc
    by_cases h : n < 10
    · rw [if_pos h] at hc
      simp only [List.mem_singleton] at hc
      rw [hc]; exact digitChar_isDigit _
    · rw [if_neg h] at hc
      rcases List.mem_append.mp hc with h' | h'
      · exact ih _ c h'
      · simp only [List.mem_singleton] at h'
        rw [h']; exact digitChar_isDigit _

theorem natDigitsF_ne_nil (fuel n : Nat) : natDigitsF fuel n ≠ [] := by
  cases fuel with
  | zero => simp [natDigitsF]
  | succ f =>
    simp only [natDigitsF]
    by_cases h : n < 10
    · rw [if_pos h]; simp
    · rw [if_neg h]; simp

theorem digitsUS_of_digits :
    ∀ (l : List Char), l ≠ [] → (∀ c ∈ l, c.isDigit = true) →
      digitsUS l = true := by
  intro l
  induction l with
  | nil => intro h _; exact absurd rfl h
  | cons c t ih =>
    intro _ hdig
    cases t with
    | nil => simpa [digitsUS] using hdig c (by simp)
    | cons d rest =>
      have hd : d.isDigit = true := hdig d (by simp)
      have hne : (d == '_') = false := by
        have : d ≠ '_' := isDigit_ne_of d '_' (by rfl) hd
        simpa using this
      simp only [digitsUS, hne]
      rw [if_neg (by simp)]
      rw [hdig c (by simp), ih (by simp) (fun x hx => hdig x (by simp [hx]))]
      rfl

theorem filter_us_of_digits (l : List Char) (h : ∀ c ∈ l, c.isDigit = true) :
    l.filter (fun c => c != '_') = l := by
  apply List.filter_eq_self.mpr
  intro c hc
  have : c ≠ '_' := isDigit_ne_of c '_' (by rfl) (h c hc)
  simpa using this

theorem digitsValCore_append (l : List Char) (c : Char) :
    digitsValCore (l ++ [c]) = 10 * digitsValCore l + digitVal c := by
  simp [digitsValCore, List.foldl_append]

theorem natDigitsF_val :
    ∀ (fuel n : Nat), n ≤ fuel → digitsValCore (natDigitsF fuel n) = n := by
  intro fuel
  induction fuel with
  | zero =>
    intro n hn
    have : n = 0 := by omega
    subst this
    simp [natDigitsF, digitsValCore, digitVal_digitChar]
  | succ f ih =>
    intro n hn
    simp only [natDigitsF]
    by_cases h : n < 10
    · rw [if_pos h]
      simp [digitsValCore, digitVal_digitChar n h]
    · rw [if_neg h]
      rw [digitsValCore_append]
      have hdiv : n / 10 ≤ f := by
        have h1 : n / 10 < n := Nat.div_lt_self (by omega) (by omega)
        omega
      rw [ih (n / 10) hdiv]
      rw [digitVal_digitChar (n % 10) (Nat.mod_lt n (by omega))]
      omega

theorem pyNat?_natDigits (n : Nat) : pyNat? (natDigits n) = some n := by
  unfold pyNat? natDigits
  rw [if_pos (digitsUS_of_digits _ (natDigitsF_ne_nil n n) (natDigitsF_digits n n))]
  rw [filter_us_of_digits _ (natDigitsF_digits n n)]
  rw [natDigitsF_val n n (le_refl n)]

theorem pyStrInt_chars (k : Int) :
    ∀ c ∈ pyStrInt k, c.isDigit = true ∨ c = '-' := by
  intro c hc
  unfold pyStrInt at hc
  by_cases h : k < 0
  · rw [if_pos h] at hc
    rcases List.mem_cons.mp hc with h' | h'
    · exact Or.inr h'
    · exact Or.inl (natDigitsF_digits _ _ c h')
  · rw [if_neg h] at hc
    exact Or.inl (natDigitsF_digits _ _ c hc)

theorem pySigned_pyStrInt (k : Int) : pySigned (pyStrInt k) = some k := by
  unfold pyStrInt
  by_cases h : k < 0
  · rw [if_pos h]
    simp only [pySigned, if_pos rfl]
    rw [pyNat?_natDigits]
    simp
    omega
  · rw [if_neg h]
    obtain ⟨c, t, hct⟩ := List.exists_cons_of_ne_nil (natDigitsF_ne_nil k.toNat k.toNat)
    unfold natDigits
    rw [hct]
    have hcdig : c.isDigit = true := by
      apply natDigitsF_digits k.toNat k.toNat
      rw [hct]; simp
    have hc1 : c ≠ '-' := isDigit_ne_of c '-' (by rfl) hcdig
    have hc2 : c ≠ '+' := isDigit_ne_of c '+' (by rfl) hcdig
    simp only [pySigned, if_neg hc1, if_neg hc2]
    rw [← hct, ← natDigits]
    rw [pyNat?_natDigits]
    simp
    omega

theorem dropWhile_eq_self_of (p : Char → Bool) (l : List Char)
    (h : ∀ c ∈ l, p c = false) : l.dropWhile p = l := by
  cases l with
  | nil => rfl
  | cons c t =>
    rw [List.dropWhile_cons, h c (by simp)]
    simp

theorem pySpace_false_of_digit (c : Char) (h : c.isDigit = true) :
    pySpace c = false := by
  cases hs : pySpace c with
  | false => rfl
  | true =>
    exfalso
    simp only [pySpace, Bool.or_eq_true, beq_iff_eq] at hs
    rcases hs with ((((h' | h') | h') | h') | h') | h' <;> rw [h'] at h <;>
      exact absurd h (by decide)

theorem pyStrip_eq_self (l : List Char) (h : ∀ c ∈ l, pySpace c = false) :
    pyStrip l = l := by
  unfold pyStrip
  rw [dropWhile_eq_self_of pySpace l h]
  rw [dropWhile_eq_self_of pySpace l.reverse
    (fun c hc => h c (List.mem_reverse.mp hc))]
  exact List.reverse_reverse l

theorem pyInt?_pyStrInt (k : Int) : pyInt? (pyStrInt k) = some k := by
  have hns : ∀ c ∈ pyStrInt k, pySpace c = false := by
    intro c hc
    rcases pyStrInt_chars k c hc with hd | hd
    · exact pySpace_false_of_digit c hd
    · rw [hd]; decide
  unfold pyInt?
  rw [pyStrip_eq_self _ hns]
  exact pySigned_pyStrInt k

theorem clean_of_chars (sc : Char) (sep a x : List Char) (h : ∀ c ∈ a, c ≠ sc) :
    ∀ i, i < a.length → ipo (sc :: sep) ((a ++ x).drop i) = false := by
  intro i hi
  rw [List.drop_append_eq_append_drop]
  have h0 : i - a.length = 0 := by omega
  rw [h0, List.drop_zero]
  rw [List.drop_eq_getElem_cons hi]
  cases hb : ipo (sc :: sep) (a[i] :: (a.drop (i + 1) ++ x)) with
  | false => exact hb
  | true =>
    exact absurd (ipo_head hb).symm (h a[i] (List.getElem_mem hi))

theorem cleanBeforeB_spec (sc : Char) (sep a : List Char)
    (h : cleanBeforeB sc sep a = true) :
    ∀ i, i < a.length → ipo (sc :: sep) ((a ++ sc :: sep).drop i) = false := by
  intro i hi
  have h' := List.all_eq_true.mp h i (List.mem_range.mpr hi)
  simpa using h'

theorem pth_data_eq : ".pth".data = ['.', 'p', 't', 'h'] := rfl

theorem epoch_sep_data_eq : "_epoch_".data = '_' :: "epoch_".data := rfl

theorem epochCore_boundary (a : List Char) (k : Int)
    (hclean : ∀ i, i < a.length →
      ipo ('_' :: "epoch_".data) ((a ++ '_' :: "epoch_".data).drop i) = false) :
    epochCore (a ++ ('_' :: "epoch_".data) ++ (pyStrInt k ++ ".pth".data)) =
      Except.ok k := by
  have hbchars : ∀ c ∈ pyStrInt k ++ ".pth".data, c ≠ '_' := by
    intro c hc
    rcases List.mem_append.mp hc with h | h
    · rcases pyStrInt_chars k c h with hd | hd
      · exact isDigit_ne_of c '_' (by rfl) hd
      · rw [hd]; decide
    · rw [pth_data_eq] at h
      fin_cases h <;> decide
  unfold epochCore pySplit
  rw [splitLF_boundary '_' "epoch_".data (pyStrInt k ++ ".pth".data) a _ (le_refl _) hclean]
  rw [splitLF_no_sc '_' "epoch_".data _ _ (le_refl _) hbchars]
  simp only [List.drop_succ_cons, List.drop_zero]
  have hdigne : ∀ c ∈ pyStrInt k, c ≠ '.' := by
    intro c hc
    rcases pyStrInt_chars k c hc with hd | hd
    · exact isDigit_ne_of c '.' (by rfl) hd
    · rw [hd]; decide
  have hb2 : pyStrInt k ++ ".pth".data =
      pyStrInt k ++ ('.' :: "pth".data) ++ [] := by
    simp
  rw [hb2]
  rw [splitLF_fuel '.' "pth".data _ _ ((pyStrInt k ++ ('.' :: "pth".data) ++ []).length)
    (le_refl _) (le_refl _)]
  rw [splitLF_boundary '.' "pth".data [] (pyStrInt k) _ (le_refl _)
    (clean_of_chars '.' "pth".data (pyStrInt k) ('.' :: "pth".data) hdigne)]
  simp only [List.headD_cons]
  rw [pyInt?_pyStrInt]

theorem epochCore_error_cases (l : List Char) (er : PyErr)
    (h : epochCore l = Except.error er) :
    er = PyErr.indexError ∨ er = PyErr.valueError := by
  unfold epochCore at h
  split at h
  · exact Or.inl (Except.error.inj h).symm
  · split at h
    · exact Or.inr (Except.error.inj h).symm
    · exact Except.noConfusion h

/-- Claim C1, counterexample: with model type name `M`, weights `7`,
optimizer state `11`, early-stop counter `3` and save path `ckpt`, saving at
epoch `0` writes `ckpt/models/M/M_epoch_1.pth`, and loading that file
returns epoch `1`, not the saved `0`: the loader parses the epoch out of
the filename, which embeds `epoch+1` (the saved dictionary's `epoch` key is
ignored).  So the round trip does not return `epoch == e`. -/
theorem checkpoint_roundtrip_claim_false :
    load_checkpoint (save_checkpoint "M" (7 : Int) 0 (11 : Int) 3 "ckpt").1
        (save_checkpoint "M" (7 : Int) 0 (11 : Int) 3 "ckpt").2 =
      Except.ok ((7 : Int), (1 : Int),
        (⟨1 / 1000, (11 : Int)⟩ : Optimizer Int), (3 : Int)) ∧
      (1 : Int) ≠ (0 : Int) := by
  constructor
  · rfl
  · decide

/-- Claim C1 (amended): for every model state, optimizer state, early-stop
counter and epoch `e`, if neither the save path nor the model type name
produces a spurious `_epoch_` occurrence before the filename marker, then
saving at epoch `e` and loading the produced file returns epoch `e + 1`
(the value embedded in the filename) and restores the model weights, the
optimizer state and the early-stop counter identical to what was saved
(the rebuilt optimizer carries the hardcoded default learning rate). -/
theorem checkpoint_roundtrip_epoch_shift (W O : Type) (w : W) (o : O)
    (e esc : Int) (sp M : String)
    (hclean : cleanBeforeB '_' "epoch_".data
      (sp.data ++ "/models/".data ++ M.data ++ "/".data ++ M.data) = true) :
    load_checkpoint (save_checkpoint M w e o esc sp).1
        (save_checkpoint M w e o esc sp).2 =
      Except.ok (w, e + 1, ⟨1 / 1000, o⟩, esc) := by
  have hpath : (save_checkpoint M w e o esc sp).1.data =
      (sp.data ++ "/models/".data ++ M.data ++ "/".data ++ M.data) ++
        ('_' :: "epoch_".data) ++ (pyStrInt (e + 1) ++ ".pth".data) := by
    simp [save_checkpoint, checkpoint_filename, String.data_append,
      epoch_sep_data_eq, List.append_assoc]
  unfold load_checkpoint
  rw [hpath]
  rw [epochCore_boundary _ _ (cleanBeforeB_spec _ _ _ hclean)]
  rfl

/-- Claim C1, witness: a concrete instantiation of the amended round trip
(save path `ckpt`, model name `Net`, epoch `4`). -/
theorem checkpoint_roundtrip_epoch_shift_witness :
    cleanBeforeB '_' "epoch_".data
        ("ckpt".data ++ "/models/".data ++ "Net".data ++ "/".data ++ "Net".data)
      = true ∧
    load_checkpoint (save_checkpoint "Net" (5 : Int) 4 (9 : Int) 2 "ckpt").1
        (save_checkpoint "Net" (5 : Int) 4 (9 : Int) 2 "ckpt").2 =
      Except.ok ((5 : Int), (4 : Int) + 1,
        (⟨1 / 1000, (9 : Int)⟩ : Optimizer Int), (2 : Int)) :=
  ⟨by decide,
   checkpoint_roundtrip_epoch_shift Int Int 5 9 4 2 "ckpt" "Net" (by decide)⟩

/-- Claim C2 (amended): whenever an ASCII path string does not embed the
`..._epoch_<N>.pth` marker as line 71 expects, `load_checkpoint` fails with
the parse error — `IndexError` when `_epoch_` is absent, `ValueError` when
the token between the first `_epoch_` and `.pth` is not something `int`
accepts (optional sign, digits with underscores, surrounding whitespace) —
and never with the spec's `CheckpointFormatError`, which does not exist in
the code.  (ASCII scoping because the model's `int` omits only Python's
non-ASCII decimal digits.) -/
theorem load_checkpoint_bad_name_error (W O : Type) (path : String)
    (payload : Checkpoint W O) (er : PyErr)
    (_hascii : path.data.all (fun c => c.toNat < 128) = true)
    (hparse : epochCore path.data = Except.error er) :
    load_checkpoint path payload = Except.error er ∧
      (er = PyErr.indexError ∨ er = PyErr.valueError) ∧
      er ≠ PyErr.checkpointFormatError := by
  have herr : er = PyErr.indexError ∨ er = PyErr.valueError :=
    epochCore_error_cases path.data er hparse
  constructor
  · unfold load_checkpoint
    rw [hparse]
  · constructor
    · exact herr
    · rcases herr with h | h <;> rw [h] <;> decide

/-- Claim C2, counterexample: loading the path `model.pth` (no `_epoch_`
marker) fails with `IndexError` — a Python builtin, not the dedicated
`CheckpointFormatError` the claim names (no such class exists in the
code). -/
theorem load_checkpoint_format_error_claim_false :
    load_checkpoint "model.pth" (⟨0, 0, 0, 0⟩ : Checkpoint Int Int) =
      Except.error PyErr.indexError ∧
    PyErr.indexError ≠ PyErr.checkpointFormatError := by
  constructor
  · decide
  · decide

/-- Claim C2, witness: the amended statement instantiated at the marker-free
ASCII path `model.pth`. -/
theorem load_checkpoint_bad_name_error_witness :
    "model.pth".data.all (fun c => c.toNat < 128) = true ∧
    epochCore "model.pth".data = Except.error PyErr.indexError ∧
    (load_checkpoint "model.pth" (⟨0, 0, 0, 0⟩ : Checkpoint Int Int) =
        Except.error PyErr.indexError ∧
      (PyErr.indexError = PyErr.indexError ∨ PyErr.indexError = PyErr.valueError) ∧
      PyErr.indexError ≠ PyErr.checkpointFormatError) :=
  ⟨by decide, by decide,
   load_checkpoint_bad_name_error Int Int "model.pth" ⟨0, 0, 0, 0⟩
     PyErr.indexError (by decide) (by decide)⟩

/-- Claim C3, counterexample: constructing the dataset on a missing root
fails with `AssertionError` — the `assert` on line 34 of
`data_preparation.py` — and `AssertionError` is not the
`ConfigurationError` the claim names; no such class exists in the code. -/
theorem dataset_missing_root_claim_false :
    AudioDataset.init false (fun a _ _ => a) [] none 24000 =
      Except.error PyErr.assertionError ∧
    PyErr.assertionError ≠ PyErr.configurationError := by
  constructor
  · rfl
  · decide

/-- Claim C3 (amended): for every resampler, file collection, optional
duration and sample frequency, when the root path does not exist the
dataset constructor fails immediately with `AssertionError` (the `assert`
fires before any audio file is loaded: the error carries no loaded data). -/
theorem dataset_missing_root_assertion
    (resample : List (List ℚ) → Nat → Nat → List (List ℚ))
    (files : List RawAudio) (max_length_audio : Option Nat)
    (sample_frequency : Nat) :
    AudioDataset.init false resample files max_length_audio sample_frequency =
      Except.error PyErr.assertionError := rfl

/-- Claim C6: whatever shuffle flag the wrapper is constructed with, the
flag it passes to the underlying `DataLoader` constructor on line 138 is
always `False`. -/
theorem dataloader_super_shuffle_false (rootExists : Bool)
    (resample : List (List ℚ) → Nat → Nat → List (List ℚ))
    (files : List RawAudio) (batch_size : Nat) (shuffle : Bool)
    (max_length_audio : Option Nat) (sample_frequency : Nat)
    (l : AudioDataLoader)
    (h : AudioDataLoader.init rootExists resample files batch_size shuffle
        max_length_audio sample_frequency = Except.ok l) :
    l.superInit.shuffle = false := by
  unfold AudioDataLoader.init at h
  split at h
  · exact Except.noConfusion h
  · have h' := Except.ok.inj h
    rw [← h']

/-- Claim C6, witness: constructing the wrapper with `shuffle=True` still
passes `shuffle=False` to the underlying loader. -/
theorem dataloader_super_shuffle_false_witness :
    (AudioDataLoader.init true (fun a _ _ => a) [] 2 true (some 20) 24000 =
      Except.ok
        { dataset := ⟨480000, []⟩
          batch_size := 2
          max_len := some 480000
          shuffle := true
          superInit := { dataset := ⟨480000, []⟩, batch_size := 2, shuffle := false } }) ∧
    (AudioDataLoader.mk ⟨480000, []⟩ 2 (some 480000) true
        ⟨⟨480000, []⟩, 2, false⟩).superInit.shuffle = false :=
  ⟨rfl,
   dataloader_super_shuffle_false true (fun a _ _ => a) [] 2 true (some 20) 24000
     (AudioDataLoader.mk ⟨480000, []⟩ 2 (some 480000) true
       ⟨⟨480000, []⟩, 2, false⟩) rfl⟩

/-! ### Lemmas about the audio dataset -/

theorem foldMaxI {α : Type} (g : α → Int) :
    ∀ (l : List α) (init : Int),
      (init ≤ l.foldl (fun m a => if m < g a then g a else m) init) ∧
      (∀ a ∈ l, g a ≤ l.foldl (fun m a => if m < g a then g a else m) init) ∧
      (l.foldl (fun m a => if m < g a then g a else m) init = init ∨
        ∃ a ∈ l, l.foldl (fun m a => if m < g a then g a else m) init = g a) := by
  intro l
  induction l with
  | nil =>
    intro init
    refine ⟨le_refl _, ?_, Or.inl rfl⟩
    intro a ha
    simp at ha
  | cons x t ih =>
    intro init
    simp only [List.foldl_cons]
    by_cases hc : init < g x
    · rw [if_pos hc]
      obtain ⟨h1, h2, h3⟩ := ih (g x)
      refine ⟨le_trans (le_of_lt hc) h1, ?_, ?_⟩
      · intro a ha
        rcases List.mem_cons.mp ha with h | h
        · rw [h]; exact h1
        · exact h2 a h
      · rcases h3 with h | ⟨a, ha, he⟩
        · exact Or.inr ⟨x, by simp, h⟩
        · exact Or.inr ⟨a, by simp [ha], he⟩
    · rw [if_neg hc]
      obtain ⟨h1, h2, h3⟩ := ih init
      refine ⟨h1, ?_, ?_⟩
      · intro a ha
        rcases List.mem_cons.mp ha with h | h
        · rw [h]
          exact le_trans (by omega) h1
        · exact h2 a h
      · rcases h3 with h | ⟨a, ha, he⟩
        · exact Or.inl h
        · exact Or.inr ⟨a, by simp [ha], he⟩

theorem chMean_length (a : List (List ℚ)) : (chMean a).length = 1 := rfl

theorem loadStep_length (resample : List (List ℚ) → Nat → Nat → List (List ℚ))
    (freq : Nat) (f : RawAudio) (hf : 1 ≤ f.channels.length)
    (hres : ∀ (a : List (List ℚ)) (sr : Nat),
      1 ≤ a.length → 1 ≤ (resample a sr freq).length) :
    (loadStep resample freq f).length = 1 := by
  simp only [loadStep]
  split
  · have h1 : 1 ≤ (resample f.channels f.sr freq).length := hres _ _ hf
    split
    · exact chMean_length _
    · omega
  · have h1 : 1 ≤ f.channels.length := hf
    split
    · exact chMean_length _
    · omega

theorem size1_singleton (ch : List ℚ) : size1 [ch] = ch.length := rfl

theorem normalizeClip_spec (maxLen : Int) (a : List (List ℚ))
    (ha : a.length = 1) (h0 : 0 ≤ maxLen) :
    (normalizeClip maxLen a).length = 1 ∧
      (size1 (normalizeClip maxLen a) : Int) = maxLen := by
  obtain ⟨ch, rfl⟩ := List.length_eq_one.mp ha
  unfold normalizeClip
  rw [size1_singleton]
  by_cases h1 : (ch.length : Int) < maxLen
  · rw [if_pos h1]
    unfold padding_audio
    simp only [List.map_cons, List.map_nil]
    refine ⟨rfl, ?_⟩
    rw [size1_singleton]
    simp only [List.length_append, List.length_replicate]
    omega
  · rw [if_neg h1]
    by_cases h2 : maxLen < (ch.length : Int)
    · rw [if_pos h2]
      unfold cut_audio
      simp only [List.map_cons, List.map_nil]
      refine ⟨rfl, ?_⟩
      rw [size1_singleton]
      simp only [List.length_take]
      omega
    · rw [if_neg h2]
      refine ⟨rfl, ?_⟩
      rw [size1_singleton]
      omega

/-- Claim C4: in every successfully constructed dataset (over inputs with at
least one channel, and a resampler preserving that), every stored clip has
exactly one channel and exactly `max_len` (the target length) samples, and
indexing at any valid index returns the clip with the channel dimension
squeezed away: a flat sample sequence of exactly `max_len` samples. -/
theorem dataset_clip_invariant
    (resample : List (List ℚ) → Nat → Nat → List (List ℚ)) (freq : Nat)
    (files : List RawAudio) (mla : Option Nat) (ds : AudioDataset)
    (hch : ∀ f ∈ files, 1 ≤ f.channels.length)
    (hres : ∀ (a : List (List ℚ)) (sr : Nat),
      1 ≤ a.length → 1 ≤ (resample a sr freq).length)
    (hinit : AudioDataset.init true resample files mla freq = Except.ok ds) :
    (∀ clip ∈ ds.data, clip.length = 1 ∧ (size1 clip : Int) = ds.max_len) ∧
    (∀ idx, idx < ds.data.length →
      ∃ ch, ds.getItem idx = Tensor.t1 ch ∧ (ch.length : Int) = ds.max_len) := by
  set data := files.map (loadStep resample freq) with hdata
  set m := (Option.map (fun d => ((d * freq : Nat) : Int)) mla).getD
    (observedMax data) with hm
  have h' : Except.ok (⟨m, data.map (normalizeClip m)⟩ : AudioDataset) =
      Except.ok ds := hinit
  have h2 := Except.ok.inj h'
  have hml : ds.max_len = m := by rw [← h2]
  have hdd : ds.data = data.map (normalizeClip m) := by rw [← h2]
  have hkey : ∀ clip ∈ data.map (normalizeClip m),
      clip.length = 1 ∧ (size1 clip : Int) = m := by
    intro clip hclip
    obtain ⟨a, ha, rfl⟩ := List.mem_map.mp hclip
    have ha' := ha
    rw [hdata] at ha'
    obtain ⟨f, hffiles, hfa⟩ := List.mem_map.mp ha'
    have hlen1 : a.length = 1 := by
      rw [← hfa]
      exact loadStep_length resample freq f (hch f hffiles) hres
    have h0 : 0 ≤ m := by
      rcases mla with _ | d
      · have hmax : (size1 a : Int) ≤ observedMax data := by
          obtain ⟨_, hmem, _⟩ := foldMaxI (fun x => (size1 x : Int)) data (-1)
          exact hmem a ha
        simp only [hm, Option.map_none', Option.getD_none]
        omega
      · simp only [hm, Option.map_some', Option.getD_some]
        omega
    exact normalizeClip_spec m a hlen1 h0
  constructor
  · intro clip hclip
    rw [hdd] at hclip
    rw [hml]
    exact hkey clip hclip
  · intro idx hidx
    rw [hdd] at hidx
    have hmemD : (data.map (normalizeClip m)).getD idx [] ∈
        data.map (normalizeClip m) := by
      rw [List.getD_eq_getElem _ _ hidx]
      exact List.getElem_mem hidx
    obtain ⟨hl1, hl2⟩ := hkey _ hmemD
    obtain ⟨ch, hch1⟩ := List.length_eq_one.mp hl1
    refine ⟨ch, ?_, ?_⟩
    · unfold AudioDataset.getItem
      rw [hdd, hch1]
      rfl
    · rw [hml]
      rw [hch1, size1_singleton] at hl2
      exact hl2

/-- Claim C5: if an explicit maximum duration `d` is supplied, the resolved
target length is `d * sample_frequency`; if omitted, it is the maximum
`size(1)` observed over all loaded (post-resample, post-mono) files. -/
theorem dataset_target_length_resolution
    (resample : List (List ℚ) → Nat → Nat → List (List ℚ))
    (files : List RawAudio) (freq : Nat) :
    (∀ (d : Nat) (ds : AudioDataset),
        AudioDataset.init true resample files (some d) freq = Except.ok ds →
        ds.max_len = ((d * freq : Nat) : Int)) ∧
    (∀ ds : AudioDataset,
        AudioDataset.init true resample files none freq = Except.ok ds →
        files ≠ [] →
        (∃ f ∈ files, ds.max_len = (size1 (loadStep resample freq f) : Int)) ∧
        (∀ f ∈ files,
          (size1 (loadStep resample freq f) : Int) ≤ ds.max_len)) := by
  constructor
  · intro d ds h
    have h' : Except.ok (⟨((d * freq : Nat) : Int),
        (files.map (loadStep resample freq)).map
          (normalizeClip ((d * freq : Nat) : Int))⟩ : AudioDataset) =
        Except.ok ds := h
    rw [← Except.ok.inj h']
  · intro ds h hne
    have h' : Except.ok (⟨observedMax (files.map (loadStep resample freq)),
        (files.map (loadStep resample freq)).map
          (normalizeClip (observedMax (files.map (loadStep resample freq))))⟩ :
        AudioDataset) = Except.ok ds := h
    have h2 := Except.ok.inj h'
    obtain ⟨hinit1, hmem, hcase⟩ :=
      foldMaxI (fun x => (size1 x : Int)) (files.map (loadStep resample freq)) (-1)
    constructor
    · rcases hcase with hc | ⟨a, ha, he⟩
      · exfalso
        obtain ⟨f0, t0, rfl⟩ := List.exists_cons_of_ne_nil hne
        have hmem0 := hmem (loadStep resample freq f0) (by simp)
        rw [hc] at hmem0
        omega
      · obtain ⟨f, hffiles, hfa⟩ := List.mem_map.mp ha
        refine ⟨f, hffiles, ?_⟩
        rw [← h2, hfa]
        exact he
    · intro f hffiles
      rw [← h2]
      exact hmem (loadStep resample freq f) (List.mem_map.mpr ⟨f, hffiles, rfl⟩)

/-- Claim C4, witness: a two-file corpus (lengths 2 and 3 at the target
rate) yields target length 3, one-channel clips of exactly 3 samples, and
flat 3-sample retrievals. -/
theorem dataset_clip_invariant_witness :
    (∀ f ∈ [RawAudio.mk [[1, 2]] 5, RawAudio.mk [[3, 4, 5]] 5],
      1 ≤ f.channels.length) ∧
    (AudioDataset.init true (fun a _ _ => a)
        [RawAudio.mk [[1, 2]] 5, RawAudio.mk [[3, 4, 5]] 5] none 5 =
      Except.ok ⟨3, [[[1, 2, 0]], [[3, 4, 5]]]⟩) ∧
    ((∀ clip ∈ (AudioDataset.mk 3 [[[1, 2, 0]], [[3, 4, 5]]]).data,
        clip.length = 1 ∧
        (size1 clip : Int) = (AudioDataset.mk 3 [[[1, 2, 0]], [[3, 4, 5]]]).max_len) ∧
      (∀ idx, idx < (AudioDataset.mk 3 [[[1, 2, 0]], [[3, 4, 5]]]).data.length →
        ∃ ch, (AudioDataset.mk 3 [[[1, 2, 0]], [[3, 4, 5]]]).getItem idx =
            Tensor.t1 ch ∧
          (ch.length : Int) = (AudioDataset.mk 3 [[[1, 2, 0]], [[3, 4, 5]]]).max_len)) :=
  ⟨by decide, rfl,
   dataset_clip_invariant (fun a _ _ => a) 5
     [RawAudio.mk [[1, 2]] 5, RawAudio.mk [[3, 4, 5]] 5] none
     (AudioDataset.mk 3 [[[1, 2, 0]], [[3, 4, 5]]])
     (by decide) (fun a _ h => h) rfl⟩

/-- Claim C5, witness: with the 2- and 3-sample files above, an explicit
2-second duration at 5 Hz gives target length 10, and omitting it gives the
maximum observed length 3. -/
theorem dataset_target_length_resolution_witness :
    (AudioDataset.init true (fun a _ _ => a)
        [RawAudio.mk [[1, 2]] 5, RawAudio.mk [[3, 4, 5]] 5] (some 2) 5 =
      Except.ok ⟨10, [[[1, 2, 0, 0, 0, 0, 0, 0, 0, 0]],
        [[3, 4, 5, 0, 0, 0, 0, 0, 0, 0]]]⟩) ∧
    ((AudioDataset.mk 10 [[[1, 2, 0, 0, 0, 0, 0, 0, 0, 0]],
        [[3, 4, 5, 0, 0, 0, 0, 0, 0, 0]]]).max_len = ((2 * 5 : Nat) : Int)) ∧
    (AudioDataset.init true (fun a _ _ => a)
        [RawAudio.mk [[1, 2]] 5, RawAudio.mk [[3, 4, 5]] 5] none 5 =
      Except.ok ⟨3, [[[1, 2, 0]], [[3, 4, 5]]]⟩) ∧
    ([RawAudio.mk [[1, 2]] 5, RawAudio.mk [[3, 4, 5]] 5] ≠ ([] : List RawAudio)) ∧
    ((∃ f ∈ [RawAudio.mk [[1, 2]] 5, RawAudio.mk [[3, 4, 5]] 5],
        (AudioDataset.mk 3 [[[1, 2, 0]], [[3, 4, 5]]]).max_len =
          (size1 (loadStep (fun a _ _ => a) 5 f) : Int)) ∧
      (∀ f ∈ [RawAudio.mk [[1, 2]] 5, RawAudio.mk [[3, 4, 5]] 5],
        (size1 (loadStep (fun a _ _ => a) 5 f) : Int) ≤
          (AudioDataset.mk 3 [[[1, 2, 0]], [[3, 4, 5]]]).max_len)) :=
  ⟨rfl,
   (dataset_target_length_resolution (fun a _ _ => a)
     [RawAudio.mk [[1, 2]] 5, RawAudio.mk [[3, 4, 5]] 5] 5).1 2
     (AudioDataset.mk 10 [[[1, 2, 0, 0, 0, 0, 0, 0, 0, 0]],
       [[3, 4, 5, 0, 0, 0, 0, 0, 0, 0]]]) rfl,
   rfl, by decide,
   (dataset_target_length_resolution (fun a _ _ => a)
     [RawAudio.mk [[1, 2]] 5, RawAudio.mk [[3, 4, 5]] 5] 5).2
     (AudioDataset.mk 3 [[[1, 2, 0]], [[3, 4, 5]]]) rfl (by decide)⟩

/-! ### Lemmas about `get_latest_epoch` -/

theorem get_latest_epoch_names_nil (names : List String)
    (h : parsedEpochs names = []) : get_latest_epoch_names names = 0 := by
  unfold get_latest_epoch_names
  rw [h]

theorem get_latest_epoch_names_cons (names : List String) (p : Int)
    (ps : List Int) (h : parsedEpochs names = p :: ps) :
    get_latest_epoch_names names =
      ps.foldl (fun a b => if a < b then b else a) p := by
  unfold get_latest_epoch_names
  rw [h]

/-- Claim C8: over an ASCII directory listing, `get_latest_epoch` returns
the maximum of the trailing numeric tokens parsed from the scanned `*.pth`
filenames; `0` when none parse (including an empty directory); and a
filename whose trailing token does not parse is skipped locally — removing
such a file from the listing never changes the result.  (ASCII scoping
because the model's `int` omits only Python's non-ASCII decimal digits.) -/
theorem get_latest_epoch_max (names : List String)
    (_hascii : names.all (fun n => n.data.all (fun c => c.toNat < 128)) = true) :
    (parsedEpochs names = [] → get_latest_epoch_names names = 0) ∧
    (parsedEpochs names ≠ [] →
      get_latest_epoch_names names ∈ parsedEpochs names ∧
      ∀ k ∈ parsedEpochs names, k ≤ get_latest_epoch_names names) ∧
    (∀ (pre post : List String) (bad : String),
      names = pre ++ bad :: post →
      pyInt? (trailingTok bad) = none →
      get_latest_epoch_names names = get_latest_epoch_names (pre ++ post)) := by
  refine ⟨get_latest_epoch_names_nil names, ?_, ?_⟩
  · intro h
    rcases hp : parsedEpochs names with _ | ⟨p, ps⟩
    · exact absurd hp h
    · rw [get_latest_epoch_names_cons names p ps hp]
      obtain ⟨h1, h2, h3⟩ := foldMaxI (fun k : Int => k) ps p
      constructor
      · rcases h3 with hc | ⟨a, ha, he⟩
        · rw [hc]; simp
        · rw [he]; simp [ha]
      · intro k hk
        rcases List.mem_cons.mp hk with hk' | hk'
        · rw [hk']; exact h1
        · exact h2 k hk'
  · intro pre post bad hnames hbad
    subst hnames
    have hpe : parsedEpochs (pre ++ bad :: post) = parsedEpochs (pre ++ post) := by
      cases hb : pthGlobMatch bad.data with
      | false =>
        simp [parsedEpochs, globPth, List.filter_append, List.filterMap_append,
          List.filter_cons, hb]
      | true =>
        simp [parsedEpochs, globPth, List.filter_append, List.filterMap_append,
          List.filter_cons, hb, List.filterMap_cons, hbad]
    unfold get_latest_epoch_names
    rw [hpe]

/-- Claim C8, witness: an empty directory yields `0`; over
`m_1.pth, m_12.pth` the result is their numeric maximum; dropping the
unparseable `bad_x.pth` from between them changes nothing. -/
theorem get_latest_epoch_max_witness :
    (parsedEpochs [] = [] ∧ get_latest_epoch_names [] = 0) ∧
    (parsedEpochs ["m_1.pth", "m_12.pth"] ≠ [] ∧
      (get_latest_epoch_names ["m_1.pth", "m_12.pth"] ∈
          parsedEpochs ["m_1.pth", "m_12.pth"] ∧
        ∀ k ∈ parsedEpochs ["m_1.pth", "m_12.pth"],
          k ≤ get_latest_epoch_names ["m_1.pth", "m_12.pth"])) ∧
    (pyInt? (trailingTok "bad_x.pth") = none ∧
      get_latest_epoch_names ["m_1.pth", "bad_x.pth", "m_12.pth"] =
        get_latest_epoch_names ["m_1.pth", "m_12.pth"]) :=
  ⟨⟨rfl, (get_latest_epoch_max [] (by decide)).1 rfl⟩,
   ⟨by decide,
    (get_latest_epoch_max ["m_1.pth", "m_12.pth"] (by decide)).2.1 (by decide)⟩,
   ⟨by decide,
    (get_latest_epoch_max ["m_1.pth", "bad_x.pth", "m_12.pth"] (by decide)).2.2
      ["m_1.pth"] ["m_12.pth"] "bad_x.pth" rfl (by decide)⟩⟩

/-- Claim C10: `save_checkpoint` writes `models/<name>/<name>_epoch_<e+1>.pth`
— one directory level below `models` — while `get_latest_epoch` globs only
the immediate `models` directory; hence on a tree populated solely by
`save_checkpoint`, `get_latest_epoch` returns 0. -/
theorem save_below_models_latest_epoch_zero (saves : List (String × Int)) :
    (∀ (M : String) (e : Int),
      save_checkpoint_relpath M e = ["models", M, checkpoint_filename M e]) ∧
    get_latest_epoch (saves.map (fun s => save_checkpoint_relpath s.1 s.2)) = 0 := by
  refine ⟨fun M e => rfl, ?_⟩
  have hnone : (saves.map (fun s => save_checkpoint_relpath s.1 s.2)).filterMap
      (fun p => match p with | ["models", n] => some n | _ => none) = [] := by
    induction saves with
    | nil => rfl
    | cons s t ih =>
      simp only [List.map_cons, List.filterMap_cons]
      rw [show (match save_checkpoint_relpath s.1 s.2 with
          | ["models", n] => some n | _ => none) = none from rfl]
      exact ih
  unfold get_latest_epoch
  rw [hnone]
  exact get_latest_epoch_names_nil [] rfl

/-! ### Lemmas about `get_latest_checkpoint_path` -/

theorem keyed_ok (l : List String)
    (h : ∀ f ∈ l, ∃ k, ckptKey f = Except.ok k) :
    ∃ kl : List (String × Int), keyed? l = Except.ok kl ∧
      kl.map Prod.fst = l ∧ ∀ p ∈ kl, ckptKey p.1 = Except.ok p.2 := by
  induction l with
  | nil => exact ⟨[], rfl, rfl, by simp⟩
  | cons f t ih =>
    obtain ⟨k, hk⟩ := h f (by simp)
    obtain ⟨kl, hkl, hmap, hall⟩ := ih (fun g hg => h g (by simp [hg]))
    refine ⟨(f, k) :: kl, ?_, ?_, ?_⟩
    · unfold keyed? at hkl ⊢
      rw [List.mapM_cons, hk, hkl]
      rfl
    · simp [hmap]
    · intro p hp
      rcases List.mem_cons.mp hp with h' | h'
      · rw [h']; exact hk
      · exact hall p h'

theorem sorted_keyLe_getLast (l : List (String × Int)) (hs : l.Sorted keyLe) :
    ∀ x ∈ l, ∀ (h : l ≠ []), x.2 ≤ (l.getLast h).2 := by
  induction l with
  | nil => intro x hx; simp at hx
  | cons a t ih =>
    intro x hx h
    rcases List.sorted_cons.mp hs with ⟨ha, ht⟩
    rcases List.mem_cons.mp hx with h' | h'
    · subst h'
      cases t with
      | nil => exact le_refl _
      | cons b t' =>
        rw [List.getLast_cons (by simp : (b :: t') ≠ [])]
        exact ha _ (List.getLast_mem (by simp : (b :: t') ≠ []))
    · cases t with
      | nil => simp at h'
      | cons b t' =>
        rw [List.getLast_cons (by simp : (b :: t') ≠ [])]
        exact ih ht x h' (by simp)

theorem getLast_insertionSort_max (kl : List (String × Int)) (h : kl ≠ []) :
    ∃ m, (List.insertionSort keyLe kl).getLast? = some m ∧ m ∈ kl ∧
      ∀ x ∈ kl, x.2 ≤ m.2 := by
  have hperm := List.perm_insertionSort keyLe kl
  have hne : List.insertionSort keyLe kl ≠ [] := by
    intro hcon
    rw [hcon] at hperm
    exact h hperm.symm.eq_nil
  refine ⟨(List.insertionSort keyLe kl).getLast hne,
    List.getLast?_eq_getLast _ hne, ?_, ?_⟩
  · exact hperm.mem_iff.mp (List.getLast_mem hne)
  · intro x hx
    exact sorted_keyLe_getLast _ (List.sorted_insertionSort keyLe kl) x
      (hperm.mem_iff.mpr hx) hne

/-- Claim C7 (amended): over a directory whose epoch-marked `*.pth` files
all embed a parsable numeric epoch, `get_latest_checkpoint_path` returns
`None` when no epoch-marked file exists and otherwise returns a file of
the filtered set whose embedded epoch is numerically maximal (so over
epochs `{1,3,2}` it is the epoch-3 file, and the order is numeric, not
lexicographic).  On a file with `"epoch"` in its stem but no parsable
marker the call instead raises (see the counterexample). -/
theorem get_latest_checkpoint_path_max (dir : List String)
    (hWF : ∀ f ∈ epochFiltered dir, ∃ k, ckptKey f = Except.ok k) :
    (epochFiltered dir = [] →
      get_latest_checkpoint_path dir = Except.ok none) ∧
    (epochFiltered dir ≠ [] →
      ∃ f k, get_latest_checkpoint_path dir = Except.ok (some f) ∧
        f ∈ epochFiltered dir ∧ ckptKey f = Except.ok k ∧
        ∀ g kg, g ∈ epochFiltered dir → ckptKey g = Except.ok kg → kg ≤ k) := by
  constructor
  · intro h
    unfold get_latest_checkpoint_path
    rw [h]
    rfl
  · intro h
    obtain ⟨kl, hkl, hmap, hall⟩ := keyed_ok (epochFiltered dir) hWF
    have hklne : kl ≠ [] := by
      intro hcon
      rw [hcon] at hmap
      exact h hmap.symm
    obtain ⟨m, hlast, hmem, hmax⟩ := getLast_insertionSort_max kl hklne
    have hie : (epochFiltered dir).isEmpty = false := by
      cases hie' : (epochFiltered dir).isEmpty with
      | false => rfl
      | true => exact absurd (List.isEmpty_iff.mp hie') h
    refine ⟨m.1, m.2, ?_, ?_, hall m hmem, ?_⟩
    · simp only [get_latest_checkpoint_path]
      rw [hie]
      simp only [Bool.false_eq_true, if_false]
      rw [hkl]
      show Except.ok (Option.map Prod.fst (List.insertionSort keyLe kl).getLast?) =
        Except.ok (some m.1)
      rw [hlast]
      rfl
    · rw [← hmap]
      exact List.mem_map_of_mem Prod.fst hmem
    · intro g kg hg hkg
      rw [← hmap] at hg
      obtain ⟨p, hpkl, hp1⟩ := List.mem_map.mp hg
      have hpk := hall p hpkl
      rw [hp1, hkg] at hpk
      rw [Except.ok.inj hpk]
      exact hmax p hpkl

/-- Claim C7, counterexample: the directory listing `[epochal.pth]` has no
file embedding an epoch marker in the expected `_epoch_<N>` position, yet
`get_latest_checkpoint_path` does not return `None` (nor any path): the
substring filter keeps `epochal.pth` (its stem contains `"epoch"`) and the
sort key's `split("_epoch_")[1]` raises `IndexError`. -/
theorem get_latest_checkpoint_path_claim_false :
    get_latest_checkpoint_path ["epochal.pth"] = Except.error PyErr.indexError ∧
    ∀ r : Option String,
      get_latest_checkpoint_path ["epochal.pth"] ≠ Except.ok r := by
  constructor
  · decide
  · intro r hcon
    rw [show get_latest_checkpoint_path ["epochal.pth"] =
      Except.error PyErr.indexError from by decide] at hcon
    exact Except.noConfusion hcon

/-- Claim C7, witness: over the spec's example — files for epochs
`{1, 3, 2}` — the amended statement produces an epoch-maximal file. -/
theorem get_latest_checkpoint_path_max_witness :
    (epochFiltered ["M_epoch_1.pth", "M_epoch_3.pth", "M_epoch_2.pth"] ≠ []) ∧
    (∃ f k,
      get_latest_checkpoint_path
          ["M_epoch_1.pth", "M_epoch_3.pth", "M_epoch_2.pth"] =
        Except.ok (some f) ∧
      f ∈ epochFiltered ["M_epoch_1.pth", "M_epoch_3.pth", "M_epoch_2.pth"] ∧
      ckptKey f = Except.ok k ∧
      ∀ g kg,
        g ∈ epochFiltered ["M_epoch_1.pth", "M_epoch_3.pth", "M_epoch_2.pth"] →
        ckptKey g = Except.ok kg → kg ≤ k) :=
  ⟨by decide,
   (get_latest_checkpoint_path_max
     ["M_epoch_1.pth", "M_epoch_3.pth", "M_epoch_2.pth"]
     (by
       intro f hf
       rw [show epochFiltered ["M_epoch_1.pth", "M_epoch_3.pth", "M_epoch_2.pth"] =
         ["M_epoch_1.pth", "M_epoch_3.pth", "M_epoch_2.pth"] from by decide] at hf
       simp only [List.mem_cons, List.not_mem_nil, or_false] at hf
       rcases hf with rfl | rfl | rfl
       · exact ⟨1, by decide⟩
       · exact ⟨3, by decide⟩
       · exact ⟨2, by decide⟩)).2 (by decide)⟩
